import Mathlib

/-!
Verification of the authio frame codec and stream adapters.

A shallow embedding of the `authio` repository (Go): bytes are `Nat`s
below 256, byte strings are `List Nat`, and the external `crypto/hmac`
collaborator is a parameter (`HashFn`) carrying the digest size and the
keyed-MAC function, exactly the surface the Go code consumes through
`hmac.New(hashFn, key).Write(m); .Sum(nil)`.  A full executable
HMAC-SHA-256 is also provided so that the adapters that pin `sha256.New`
can be exercised at their real instantiation, validated against the
repository's own test vectors.

The embedded functions follow `protocol/authenticator/hmac_authenticator.go`
and the stream adapter files statement by statement, including the
slice-bounds panic that Go's `data[headerLen:size]` raises when the
declared size is smaller than the header length (modelled as an explicit
`DecodeResult.sliceOOB` outcome), and `io.ReadFull` / `io.ReadAtLeast`
semantics over a `bytes.Reader`-style eager source.
-/

/-! ## Big-endian 64-bit length field (`encoding/binary.BigEndian`) -/

/-- Model of `binary.BigEndian.PutUint64`: the 8 big-endian bytes of `n`
(after Go's conversion to `uint64`, i.e. modulo `2 ^ 64`). -/
def putUint64 (n : Nat) : List Nat :=
  let m := n % 18446744073709551616
  [m / 72057594037927936 % 256,
   m / 281474976710656 % 256,
   m / 1099511627776 % 256,
   m / 4294967296 % 256,
   m / 16777216 % 256,
   m / 65536 % 256,
   m / 256 % 256,
   m % 256]

/-- Model of `binary.BigEndian.Uint64`: fold the first 8 bytes big-endian.
(Go reads exactly `b[0] .. b[7]`; every call site below passes an
8-byte slice.) -/
def beUint64 (l : List Nat) : Nat :=
  (l.take 8).foldl (fun a b => a * 256 + b) 0

theorem putUint64_length (n : Nat) : (putUint64 n).length = 8 := rfl

theorem beUint64_putUint64 (n : Nat) (h : n < 18446744073709551616) :
    beUint64 (putUint64 n) = n := by
  have hm : n % 18446744073709551616 = n := Nat.mod_eq_of_lt h
  simp only [putUint64, beUint64, hm, List.take, List.foldl]
  omega

/-! ## Standard base64 (`encoding/base64.StdEncoding`) -/

/-- The standard base64 alphabet as ASCII codes: `A-Z a-z 0-9 + /`. -/
def b64char (i : Nat) : Nat :=
  if i < 26 then 65 + i
  else if i < 52 then 97 + (i - 26)
  else if i < 62 then 48 + (i - 52)
  else if i = 62 then 43
  else 47

/-- Model of `base64.StdEncoding.EncodeToString` over raw bytes, producing the
ASCII codes of the base64 text, `=` (61) padded. -/
def b64encode : List Nat → List Nat
  | b1 :: b2 :: b3 :: rest =>
      b64char (b1 / 4) ::
      b64char ((b1 % 4) * 16 + b2 / 16) ::
      b64char ((b2 % 16) * 4 + b3 / 64) ::
      b64char (b3 % 64) ::
      b64encode rest
  | [b1, b2] =>
      [b64char (b1 / 4), b64char ((b1 % 4) * 16 + b2 / 16),
       b64char ((b2 % 16) * 4), 61]
  | [b1] =>
      [b64char (b1 / 4), b64char ((b1 % 4) * 16), 61, 61]
  | [] => []

theorem b64encode_length : ∀ l : List Nat,
    (b64encode l).length = 4 * ((l.length + 2) / 3)
  | [] => rfl
  | [_] => by simp [b64encode]
  | [_, _] => by simp [b64encode]
  | _ :: _ :: _ :: rest => by
      have ih := b64encode_length rest
      simp only [b64encode, List.length_cons, ih]
      omega

/-! ## The external hash collaborator

The Go code consumes `crypto/hmac` + a `func() hash.Hash` only through
`hmac.New(hashFn, key)` followed by one `Write` and `Sum(nil)`, plus
`hashFn().Size()`.  That surface is a digest size and a total keyed MAC
function whose output has the digest's length (per the `hash.Hash`
godoc contract, `Write` never fails). -/

structure HashFn where
  /-- `hashFn().Size()` -/
  size : Nat
  /-- `hmac.New(hashFn, key).Write(msg); Sum(nil)` -/
  mac : List Nat → List Nat → List Nat
  /-- HMAC digests have the underlying hash's size. -/
  mac_length : ∀ key msg, (mac key msg).length = size

/-- The documented `hash.Hash.Write` contract: it never returns an
error (the Go sources branch on the error regardless; the branch is
dead under the contract). -/
def hashWriteErr (_msg : List Nat) : Option String := none

/-- A small concrete hash used to instantiate hash-generic theorems:
digest size 1, a keyed polynomial checksum byte. -/
def toyHash : HashFn where
  size := 1
  mac := fun key msg =>
    [(key.foldl (fun a b => a * 7 + b) 3 +
      msg.foldl (fun a b => a * 31 + b) 5) % 256]
  mac_length := fun _ _ => rfl

/-! ## Header codec (`protocol/authenticator/hmac_authenticator.go`) -/

/-- Go's `lengthHeaderFieldSize`: the length field is an 8-byte big-endian
unsigned integer. -/
def lengthHeaderFieldSize : Nat := 8

/-- Go's `computeHeaderLengthWithHash`: `lengthHeaderFieldSize` plus the
base64-encoded MAC size `ceil(size/3) * 4`.  (Go computes the ceiling
with `math.Ceil` over `float64`, which is exact for every digest size
below `2^52`; the exact ceiling `(size + 2) / 3` is used here.) -/
def computeHeaderLengthWithHash (H : HashFn) : Nat :=
  lengthHeaderFieldSize + ((H.size + 2) / 3) * 4

/-- The header bytes `encodeHeader` assembles:
`base64(HMAC(key, lengthBytes ++ data)) ++ lengthBytes` with
`lengthBytes = PutUint64(headerLen + len(data))`. -/
def encodeHeaderBytes (H : HashFn) (headerLen : Nat) (key data : List Nat) :
    List Nat :=
  let encodedMessageLength := putUint64 (headerLen + data.length)
  let sum := b64encode (H.mac key (encodedMessageLength ++ data))
  sum ++ encodedMessageLength

/-- Go's `encodeHeader`: returns `([]byte, error)`; the only error branch
guards the HMAC `Write`, whose contract (`hashWriteErr`) never fails. -/
def encodeHeader (H : HashFn) (headerLen : Nat) (key data : List Nat) :
    Except String (List Nat) :=
  let encodedMessageLength := putUint64 (headerLen + data.length)
  match hashWriteErr (encodedMessageLength ++ data) with
  | some e => .error e
  | none => .ok (encodeHeaderBytes H headerLen key data)

/-- The distinct failure modes of `decodeHeader`. -/
inductive DecodeErr where
  /-- `"data too small to have header"`: `len(data) < headerLen`. -/
  | frameTooShort
  /-- `"data smaller than message length reported in header"`. -/
  | declaredSizeMismatch
  /-- `"MAC mismatch"`. -/
  | macMismatch
deriving DecidableEq, Repr

/-- Outcome of `decodeHeader`: success with `(msg, rest)`, one of the
three returned errors, or the runtime panic Go raises at
`data[headerLen:size]` when `size < headerLen` (slice bounds out of
range, reachable because no check forbids a declared size below the
header length). -/
inductive DecodeResult where
  | ok (msg rest : List Nat)
  | err (e : DecodeErr)
  | sliceOOB
deriving DecidableEq, Repr

/-- Go's `decodeHeader`, statement by statement from
`hmac_authenticator.go:165-205`. -/
def decodeHeader (H : HashFn) (headerLen : Nat) (key data : List Nat) :
    DecodeResult :=
  let actualDataLen := data.length
  if actualDataLen < headerLen then .err .frameTooShort
  else
    let header := data.take headerLen
    let mac := header.take (headerLen - lengthHeaderFieldSize)
    let rawSize := header.drop (headerLen - lengthHeaderFieldSize)
    let size := beUint64 rawSize
    if actualDataLen < size then .err .declaredSizeMismatch
    else if size < headerLen then .sliceOOB
    else
      let msg := (data.take size).drop headerLen
      let rest := data.drop size
      let sum := b64encode (H.mac key (rawSize ++ msg))
      if mac = sum then .ok msg rest else .err .macMismatch

/-! ## SHA-256 and HMAC-SHA-256 (`crypto/sha256`, `crypto/hmac`)

The adapters pin `sha256.New` at construction; an executable SHA-256
(bytes as `Nat`s, words as `Nat`s reduced mod `2^32`) lets those
adapters be exercised at their real instantiation.  The implementation
matches FIPS 180-4 and reproduces the repository's test vectors
(`Test_AuthenticateMessages`, `Test_GetMessageAuthenticationHeader`). -/

def rotr32 (x n : Nat) : Nat :=
  (x / 2 ^ n + x * 2 ^ (32 - n)) % 4294967296

def sigmaBig0 (x : Nat) : Nat := (rotr32 x 2) ^^^ (rotr32 x 13) ^^^ (rotr32 x 22)

def sigmaBig1 (x : Nat) : Nat := (rotr32 x 6) ^^^ (rotr32 x 11) ^^^ (rotr32 x 25)

def sigmaSmall0 (x : Nat) : Nat := (rotr32 x 7) ^^^ (rotr32 x 18) ^^^ (x >>> 3)

def sigmaSmall1 (x : Nat) : Nat := (rotr32 x 17) ^^^ (rotr32 x 19) ^^^ (x >>> 10)

def chV (x y z : Nat) : Nat := (x &&& y) ^^^ ((x ^^^ 4294967295) &&& z)

def majV (x y z : Nat) : Nat := (x &&& y) ^^^ (x &&& z) ^^^ (y &&& z)

def shaK : List Nat :=
  [1116352408, 1899447441, 3049323471, 3921009573,
   961987163, 1508970993, 2453635748, 2870763221,
   3624381080, 310598401, 607225278, 1426881987,
   1925078388, 2162078206, 2614888103, 3248222580,
   3835390401, 4022224774, 264347078, 604807628,
   770255983, 1249150122, 1555081692, 1996064986,
   2554220882, 2821834349, 2952996808, 3210313671,
   3336571891, 3584528711, 113926993, 338241895,
   666307205, 773529912, 1294757372, 1396182291,
   1695183700, 1986661051, 2177026350, 2456956037,
   2730485921, 2820302411, 3259730800, 3345764771,
   3516065817, 3600352804, 4094571909, 275423344,
   430227734, 506948616, 659060556, 883997877,
   958139571, 1322822218, 1537002063, 1747873779,
   1955562222, 2024104815, 2227730452, 2361852424,
   2428436474, 2756734187, 3204031479, 3329325298]

structure ShaState where
  a : Nat
  b : Nat
  c : Nat
  d : Nat
  e : Nat
  f : Nat
  g : Nat
  h : Nat

def shaInit : ShaState :=
  ⟨1779033703, 3144134277, 1013904242, 2773480762,
   1359893119, 2600822924, 528734635, 1541459225⟩

def bytesToWords : List Nat → List Nat
  | a :: b :: c :: d :: rest => (a * 16777216 + b * 65536 + c * 256 + d) :: bytesToWords rest
  | _ => []

def scheduleStep (w : List Nat) : List Nat :=
  w ++ [(sigmaSmall1 (w.getD (w.length - 2) 0) + w.getD (w.length - 7) 0 +
         sigmaSmall0 (w.getD (w.length - 15) 0) + w.getD (w.length - 16) 0) % 4294967296]

def scheduleN : Nat → List Nat → List Nat
  | 0, w => w
  | n + 1, w => scheduleN n (scheduleStep w)

def shaRounds : List Nat → List Nat → ShaState → ShaState
  | k :: ks, w :: ws, st =>
      let t1 := (st.h + sigmaBig1 st.e + chV st.e st.f st.g + k + w) % 4294967296
      let t2 := (sigmaBig0 st.a + majV st.a st.b st.c) % 4294967296
      shaRounds ks ws ⟨(t1 + t2) % 4294967296, st.a, st.b, st.c,
                       (st.d + t1) % 4294967296, st.e, st.f, st.g⟩
  | _, _, st => st

def shaCompress (st : ShaState) (block : List Nat) : ShaState :=
  let w := scheduleN 48 (bytesToWords block)
  let r := shaRounds shaK w st
  ⟨(st.a + r.a) % 4294967296, (st.b + r.b) % 4294967296,
   (st.c + r.c) % 4294967296, (st.d + r.d) % 4294967296,
   (st.e + r.e) % 4294967296, (st.f + r.f) % 4294967296,
   (st.g + r.g) % 4294967296, (st.h + r.h) % 4294967296⟩

def w32bytes (w : Nat) : List Nat :=
  [w / 16777216 % 256, w / 65536 % 256, w / 256 % 256, w % 256]

def stateBytes (st : ShaState) : List Nat :=
  w32bytes st.a ++ w32bytes st.b ++ w32bytes st.c ++ w32bytes st.d ++
  w32bytes st.e ++ w32bytes st.f ++ w32bytes st.g ++ w32bytes st.h

def shaPad (msg : List Nat) : List Nat :=
  msg ++ 128 :: List.replicate ((119 - msg.length % 64) % 64) 0 ++ putUint64 (msg.length * 8)

def splitBlocksAux : Nat → List Nat → List (List Nat)
  | 0, _ => []
  | fuel + 1, l => if l = [] then [] else l.take 64 :: splitBlocksAux fuel (l.drop 64)

def splitBlocks (l : List Nat) : List (List Nat) := splitBlocksAux l.length l

def sha256 (msg : List Nat) : List Nat :=
  stateBytes ((splitBlocks (shaPad msg)).foldl shaCompress shaInit)

/-- Model of `hmac.New(sha256.New, key)` then `Write(msg); Sum(nil)` (RFC 2104,
block size 64). -/
def hmacSha256 (key msg : List Nat) : List Nat :=
  let k0 := if 64 < key.length then sha256 key else key
  let kp := k0 ++ List.replicate (64 - k0.length) 0
  sha256 ((kp.map (fun b => b ^^^ 92)) ++ sha256 ((kp.map (fun b => b ^^^ 54)) ++ msg))

theorem sha256_length (msg : List Nat) : (sha256 msg).length = 32 := by
  simp [sha256, stateBytes, w32bytes]

/-- Go's `sha256.New` viewed through the `crypto/hmac` surface. -/
def sha256HashFn : HashFn where
  size := 32
  mac := hmacSha256
  mac_length := fun _ _ => by simp [hmacSha256, sha256_length]

/-! ## The frame authenticator (`DefaultMessageAuthenticator`) -/

structure DefaultMessageAuthenticator where
  hashFn : HashFn
  key : List Nat
  headerLen : Nat

/-- Go's `NewDefaultMessageAuthenticator`: caches the header length for the
chosen hash. -/
def NewDefaultMessageAuthenticator (H : HashFn) (key : List Nat) :
    DefaultMessageAuthenticator :=
  ⟨H, key, computeHeaderLengthWithHash H⟩

/-- Go's `GetMessageAuthenticationHeaderLength`. -/
def GetMessageAuthenticationHeaderLength (a : DefaultMessageAuthenticator) : Nat :=
  a.headerLen

/-- Go's `GetMessageAuthenticationHeader`. -/
def GetMessageAuthenticationHeader (a : DefaultMessageAuthenticator)
    (data : List Nat) : Except String (List Nat) :=
  encodeHeader a.hashFn a.headerLen a.key data

/-- Outcome of `AuthenticateMessages`: Go returns
`([]byte, int, error)`; `sliceOOB` propagates `decodeHeader`'s runtime
panic, and `outOfFuel` marks exhaustion of the fuel bound (unreachable
at Go's call sites, where `headerLen ≥ 8` makes every iteration consume
at least one byte). -/
inductive AuthResult where
  | ok (msg : List Nat) (count : Nat)
  | err (msg : List Nat) (count : Nat) (e : DecodeErr)
  | sliceOOB
  | outOfFuel
deriving DecidableEq, Repr

def authMessagesAux (H : HashFn) (headerLen : Nat) (key : List Nat) :
    Nat → List Nat → List Nat → Nat → AuthResult
  | 0, _, _, _ => .outOfFuel
  | fuel + 1, processed, notProcessed, nMessages =>
      if notProcessed = [] then .ok processed nMessages
      else
        match decodeHeader H headerLen key notProcessed with
        | .ok message leftOver =>
            authMessagesAux H headerLen key fuel (processed ++ message)
              leftOver (nMessages + 1)
        | .err e => .err processed nMessages e
        | .sliceOOB => .sliceOOB

/-- Go's `AuthenticateMessages`: the loop, with fuel `data.length + 1`
(sufficient whenever `headerLen ≥ 1`, since each decoded frame consumes
at least `headerLen` bytes). -/
def AuthenticateMessages (a : DefaultMessageAuthenticator) (data : List Nat) :
    AuthResult :=
  authMessagesAux a.hashFn a.headerLen a.key (data.length + 1) [] data 0

/-! ## `ReadNext` (`hmac_authenticator.go:80-127`)

The byte source is a `bytes.Reader`-style eager reader: one underlying
`Read` returns `min(len(buf), remaining)` bytes, so `io.ReadFull(r, buf)`
yields all of `buf` when enough bytes remain, `io.EOF` when none remain,
and `io.ErrUnexpectedEOF` when some but not all remain. -/

/-- Outcome of `ReadNext`: `eofData` is `io.EOF` (ordinary
end-of-data); `errHeaderTooShort` is `"read data too short to have
valid header"`; `errTruncatedPayload` is `"read message too short, does
not match message size from header"`; `makeLenOOB` is the runtime panic
of `make([]byte, size-uint64(a.headerLen))` when `size < headerLen`
wraps the `uint64` subtraction around to an impossible allocation. -/
inductive ReadNextResult where
  | ok (msg rest : List Nat)
  | eofData
  | errHeaderTooShort
  | errTruncatedPayload
  | errMacMismatch
  | makeLenOOB
deriving DecidableEq, Repr

def ReadNext (a : DefaultMessageAuthenticator) (source : List Nat) :
    ReadNextResult :=
  if source.length < a.headerLen then
    if source.length = 0 then .eofData else .errHeaderTooShort
  else
    let header := source.take a.headerLen
    let afterHeader := source.drop a.headerLen
    let mac := header.take (a.headerLen - lengthHeaderFieldSize)
    let rawSize := header.drop (a.headerLen - lengthHeaderFieldSize)
    let size := beUint64 rawSize
    if size < a.headerLen then .makeLenOOB
    else
      let msgLen := size - a.headerLen
      if afterHeader.length < msgLen then
        if afterHeader.length = 0 then .eofData else .errTruncatedPayload
      else
        let msg := afterHeader.take msgLen
        let sum := b64encode (a.hashFn.mac a.key (rawSize ++ msg))
        if mac = sum then .ok msg (afterHeader.drop msgLen) else .errMacMismatch

/-! ## `VerifyMACReader.Read` (the authenticator-based version)

`Read(b)` allocates `buf` of `headerLen + len(b)` bytes, calls
`io.ReadAtLeast(r.reader, buf, headerLen)` (same eager source model),
runs `AuthenticateMessages` over what was read, and on success does
`copy(b, msg)`.  There is no state besides the underlying reader's
position: whatever `copy` does not deliver is gone. -/

/-- The adapter's error outcomes: `io.EOF`, `"bad message received, too
short to have MAC"`, and `"failed MAC verification: ..."`. -/
inductive VMErr where
  | eofData
  | tooShortForMAC
  | verifyFailed
deriving DecidableEq, Repr

/-- Result of one `VerifyMACReader.Read` call: the returned `(n, err)`
pair, the bytes actually written into the destination (`delivered`),
and the underlying source's remaining bytes (`rest`); `readPanicked`
propagates the `decodeHeader` slice panic. -/
inductive VMReadResult where
  | ret (count : Nat) (delivered : List Nat) (err : Option VMErr) (rest : List Nat)
  | readPanicked
deriving DecidableEq, Repr

def verifyMACReaderRead (H : HashFn) (headerLen : Nat) (key : List Nat)
    (source : List Nat) (bLen : Nat) : VMReadResult :=
  let n := min (headerLen + bLen) source.length
  if n < headerLen then
    if source.length = 0 then .ret 0 [] (some .eofData) source
    else .ret 0 [] (some .tooShortForMAC) (source.drop n)
  else
    let data := source.take n
    match AuthenticateMessages ⟨H, key, headerLen⟩ data with
    | .ok msg _count => .ret (min bLen msg.length) (msg.take bLen) none (source.drop n)
    | .err _ _ _ => .ret 0 [] (some .verifyFailed) (source.drop n)
    | .sliceOOB => .readPanicked
    | .outOfFuel => .readPanicked

/-- Go's `NewVerifyMACReader` pins `sha256.New`; this is its `Read`. -/
def verifyMACReaderReadSha256 (key source : List Nat) (bLen : Nat) :
    VMReadResult :=
  verifyMACReaderRead sha256HashFn
    (computeHeaderLengthWithHash sha256HashFn) key source bLen

/-! ## `AppendMACWriter.Write` (the authenticator-based version)

The underlying transport is a byte sink `uw : List Nat → Nat × Option Unit`
returning how many bytes it flushed and whether it failed.  Go's `Write`
returns `(int, error)`; the count is an `Int` because the success path
computes `n - headerLen` in Go `int` arithmetic. -/

inductive WriteErr where
  | computeMAC
  | writeFailed
deriving DecidableEq, Repr

def appendMACWriterWrite (H : HashFn) (headerLen : Nat) (key : List Nat)
    (uw : List Nat → Nat × Option Unit) (b : List Nat) :
    Int × Option WriteErr :=
  match encodeHeader H headerLen key b with
  | .error _ => (0, some .computeMAC)
  | .ok header =>
      let r := uw (header ++ b)
      match r.2 with
      | some _ =>
          if headerLen ≤ r.1 then ((r.1 : Int) - headerLen, some .writeFailed)
          else (0, some .writeFailed)
      | none => ((r.1 : Int) - headerLen, none)

/-! ## Codec lemmas -/

theorem encodeHeaderBytes_length (H : HashFn) (key P : List Nat) :
    (encodeHeaderBytes H (computeHeaderLengthWithHash H) key P).length =
      computeHeaderLengthWithHash H := by
  simp [encodeHeaderBytes, b64encode_length, H.mac_length, putUint64_length,
    computeHeaderLengthWithHash, lengthHeaderFieldSize]
  omega

theorem decodeHeader_frame (H : HashFn) (key P suffix : List Nat)
    (hb : computeHeaderLengthWithHash H + P.length < 18446744073709551616) :
    decodeHeader H (computeHeaderLengthWithHash H) key
      (encodeHeaderBytes H (computeHeaderLengthWithHash H) key P ++ (P ++ suffix)) =
      .ok P suffix := by
  set hl := computeHeaderLengthWithHash H with hhl
  have h8 : 8 ≤ hl := by simp [hhl, computeHeaderLengthWithHash, lengthHeaderFieldSize]
  have hsum : (b64encode (H.mac key (putUint64 (hl + P.length) ++ P))).length = hl - 8 := by
    simp [b64encode_length, H.mac_length, hhl, computeHeaderLengthWithHash,
      lengthHeaderFieldSize]
    omega
  have hhdr : (encodeHeaderBytes H hl key P).length = hl := encodeHeaderBytes_length H key P
  set hdr := encodeHeaderBytes H hl key P with hdrdef
  set data := hdr ++ (P ++ suffix) with datadef
  have hdlen : data.length = hl + P.length + suffix.length := by
    simp [datadef, hhdr]; ring
  have htake : data.take hl = hdr := List.take_left' hhdr
  have hmac0 : hdr.take (hl - 8) = b64encode (H.mac key (putUint64 (hl + P.length) ++ P)) := by
    rw [hdrdef]
    show (b64encode (H.mac key (putUint64 (hl + P.length) ++ P)) ++ putUint64 (hl + P.length)).take (hl - 8) = _
    exact List.take_left' hsum
  have hraw : hdr.drop (hl - 8) = putUint64 (hl + P.length) := by
    rw [hdrdef]
    show (b64encode (H.mac key (putUint64 (hl + P.length) ++ P)) ++ putUint64 (hl + P.length)).drop (hl - 8) = _
    exact List.drop_left' hsum
  have hsize : beUint64 (hdr.drop (hl - 8)) = hl + P.length := by
    rw [hraw]; exact beUint64_putUint64 _ hb
  have hmsg : (data.take (hl + P.length)).drop hl = P := by
    rw [datadef, List.take_append_eq_append_take, hhdr,
      List.take_of_length_le (by omega : hdr.length ≤ hl + P.length)]
    simp only [Nat.add_sub_cancel_left]
    rw [List.take_append_eq_append_take,
      List.take_of_length_le (by omega : P.length ≤ P.length),
      Nat.sub_self, List.take_zero, List.append_nil]
    rw [List.drop_left' hhdr]
  have hrest : data.drop (hl + P.length) = suffix := by
    rw [datadef, List.drop_append_eq_append_drop, hhdr,
      List.drop_eq_nil_of_le (by omega : hdr.length ≤ hl + P.length)]
    have h2 : hl + P.length - hl = P.length := by omega
    rw [h2, List.nil_append, List.drop_left]
  rw [decodeHeader]
  simp only [lengthHeaderFieldSize, htake, hmac0, hraw,
    beUint64_putUint64 (hl + P.length) hb, hdlen, hmsg, hrest]
  rw [if_neg (by omega), if_neg (by omega), if_neg (by omega), if_pos trivial]

theorem ceil_div3 (n : ℕ) : ⌈(n : ℚ) / 3⌉ = ((n + 2) / 3 : ℕ) := by
  have hk1 : 3 * ((n + 2) / 3) ≤ n + 2 := by omega
  have hk2 : n ≤ 3 * ((n + 2) / 3) := by omega
  have h1q : (3 : ℚ) * ((((n + 2) / 3 : ℕ) : ℤ) : ℚ) ≤ (n : ℚ) + 2 := by
    exact_mod_cast hk1
  have h2q : (n : ℚ) ≤ 3 * ((((n + 2) / 3 : ℕ) : ℤ) : ℚ) := by
    exact_mod_cast hk2
  rw [Int.ceil_eq_iff]
  constructor
  · rw [lt_div_iff₀ (by norm_num : (0:ℚ) < 3)]
    linarith
  · rw [div_le_iff₀ (by norm_num : (0:ℚ) < 3)]
    linarith

/-! ## Claim theorems -/

/-- C1: Round-trip.  For every hash function, key and payload `P`
(including the empty payload), decoding — with the same hash function,
the header length computed for it, and the same key — the header
`encodeHeader` produced for `P` concatenated with `P` succeeds and
returns exactly `P` with an empty remainder.  (The `uint64` no-wrap
bound on the frame length holds for every frame Go can materialize.) -/
theorem roundtrip_encode_then_decode (H : HashFn) (key P hdr : List Nat)
    (henc : encodeHeader H (computeHeaderLengthWithHash H) key P = .ok hdr)
    (hb : computeHeaderLengthWithHash H + P.length < 18446744073709551616) :
    decodeHeader H (computeHeaderLengthWithHash H) key (hdr ++ P) = .ok P [] := by
  have hh : hdr = encodeHeaderBytes H (computeHeaderLengthWithHash H) key P := by
    simpa [encodeHeader, hashWriteErr] using henc.symm
  rw [hh]
  have := decodeHeader_frame H key P [] hb
  simpa using this

/-- Witness for C1 at a concrete hash, key, and payloads `[9, 8]` and
`[]`. -/
theorem roundtrip_encode_then_decode_witness :
    decodeHeader toyHash (computeHeaderLengthWithHash toyHash) [1, 2, 3]
      (encodeHeaderBytes toyHash (computeHeaderLengthWithHash toyHash) [1, 2, 3] [9, 8] ++ [9, 8]) =
      .ok [9, 8] [] ∧
    decodeHeader toyHash (computeHeaderLengthWithHash toyHash) [1, 2, 3]
      (encodeHeaderBytes toyHash (computeHeaderLengthWithHash toyHash) [1, 2, 3] [] ++ []) =
      .ok [] [] :=
  ⟨roundtrip_encode_then_decode toyHash [1, 2, 3] [9, 8] _ rfl (by decide),
   roundtrip_encode_then_decode toyHash [1, 2, 3] [] _ rfl (by decide)⟩

/-- C6: Wire format.  For every hash function, key and payload, the
encoded header is `AuthCode ++ LengthField` where `AuthCode` is the
standard base64 encoding of the HMAC computed over
`LengthField ++ Payload` (covering the length field and payload, never
the AuthCode itself), and `LengthField` is 8 bytes whose big-endian
value is the total frame length: header length plus payload length. -/
theorem header_wire_format (H : HashFn) (key P : List Nat)
    (hb : computeHeaderLengthWithHash H + P.length < 18446744073709551616) :
    encodeHeader H (computeHeaderLengthWithHash H) key P =
      .ok (b64encode (H.mac key
             (putUint64 (computeHeaderLengthWithHash H + P.length) ++ P)) ++
           putUint64 (computeHeaderLengthWithHash H + P.length)) ∧
    (putUint64 (computeHeaderLengthWithHash H + P.length)).length = 8 ∧
    beUint64 (putUint64 (computeHeaderLengthWithHash H + P.length)) =
      computeHeaderLengthWithHash H + P.length ∧
    (encodeHeaderBytes H (computeHeaderLengthWithHash H) key P ++ P).length =
      computeHeaderLengthWithHash H + P.length := by
  refine ⟨rfl, rfl, beUint64_putUint64 _ hb, ?_⟩
  simp [encodeHeaderBytes_length H key P]

/-- Witness for C6 at a concrete hash, empty key, payload `[5, 6, 7]`. -/
theorem header_wire_format_witness :
    encodeHeader toyHash (computeHeaderLengthWithHash toyHash) [] [5, 6, 7] =
      .ok (b64encode (toyHash.mac []
             (putUint64 (computeHeaderLengthWithHash toyHash + [5, 6, 7].length) ++ [5, 6, 7])) ++
           putUint64 (computeHeaderLengthWithHash toyHash + [5, 6, 7].length)) ∧
    (putUint64 (computeHeaderLengthWithHash toyHash + [5, 6, 7].length)).length = 8 ∧
    beUint64 (putUint64 (computeHeaderLengthWithHash toyHash + [5, 6, 7].length)) =
      computeHeaderLengthWithHash toyHash + [5, 6, 7].length ∧
    (encodeHeaderBytes toyHash (computeHeaderLengthWithHash toyHash) [] [5, 6, 7] ++ [5, 6, 7]).length =
      computeHeaderLengthWithHash toyHash + [5, 6, 7].length :=
  header_wire_format toyHash [] [5, 6, 7] (by decide)

/-- C7: Header-length formula.  HeaderLength is `8 + 4 * ceil(size/3)`
(the ceiling taken over ℚ), giving 52 for a 32-byte digest (SHA-256)
and 96 for a 64-byte digest (SHA-512), and the header `encodeHeader`
actually produces has exactly this length for every key and payload. -/
theorem headerLength_formula (H : HashFn) (key P : List Nat) :
    (computeHeaderLengthWithHash H : ℤ) = 8 + 4 * ⌈(H.size : ℚ) / 3⌉ ∧
    (H.size = 32 → computeHeaderLengthWithHash H = 52) ∧
    (H.size = 64 → computeHeaderLengthWithHash H = 96) ∧
    (encodeHeaderBytes H (computeHeaderLengthWithHash H) key P).length =
      computeHeaderLengthWithHash H := by
  refine ⟨?_, ?_, ?_, encodeHeaderBytes_length H key P⟩
  · rw [ceil_div3]
    simp [computeHeaderLengthWithHash, lengthHeaderFieldSize]
    ring
  · intro h
    simp [computeHeaderLengthWithHash, lengthHeaderFieldSize, h]
  · intro h
    simp [computeHeaderLengthWithHash, lengthHeaderFieldSize, h]

/-- Witness for C7 at the real SHA-256 instantiation: header length 52,
and a concretely encoded header of 52 bytes. -/
theorem headerLength_formula_witness :
    computeHeaderLengthWithHash sha256HashFn = 52 ∧
    (encodeHeaderBytes sha256HashFn (computeHeaderLengthWithHash sha256HashFn)
      [109, 111, 99, 107, 32, 107, 101, 121] [109, 111, 99, 107, 32, 100, 97, 116, 97]).length =
      computeHeaderLengthWithHash sha256HashFn :=
  ⟨(headerLength_formula sha256HashFn [] []).2.1 rfl,
   (headerLength_formula sha256HashFn [109, 111, 99, 107, 32, 107, 101, 121]
     [109, 111, 99, 107, 32, 100, 97, 116, 97]).2.2.2⟩

/-- C10: Header encoding is infallible.  For every hash function,
header length, key (including empty) and payload (including empty),
`encodeHeader` — and `GetMessageAuthenticationHeader` on every
authenticator — returns the header bytes and never an error: the only
error branch guards the HMAC `Write`, which never fails per the
`hash.Hash` contract the code itself cites. -/
theorem encodeHeader_never_fails (H : HashFn) (headerLen : Nat)
    (key data : List Nat) (a : DefaultMessageAuthenticator) :
    encodeHeader H headerLen key data = .ok (encodeHeaderBytes H headerLen key data) ∧
    GetMessageAuthenticationHeader a data =
      .ok (encodeHeaderBytes a.hashFn a.headerLen a.key data) :=
  ⟨rfl, rfl⟩

/-- C4 (code-bug evidence): `decodeHeader` is not total over all
declared `LengthField` values.  At a 52-byte buffer (SHA-256 header
length) whose declared LengthField is 0, both length checks pass
(`52 < 52` and `52 < 0` are false) and Go reaches `data[headerLen:size]`
with `size = 0 < headerLen = 52` — a runtime slice-bounds panic, not one
of the three documented errors. -/
theorem decodeHeader_small_declared_size_panics :
    decodeHeader sha256HashFn 52 [] (List.replicate 44 65 ++ putUint64 0) = .sliceOOB ∧
    (List.replicate 44 65 ++ putUint64 0).length = 52 ∧
    beUint64 ((List.replicate 44 65 ++ putUint64 0).drop 44) = 0 := by
  decide

/-- C3 (counterexample): a source that delivers a full header declaring
a 13-byte frame (header length 12 for the concrete hash) and then ends
— zero payload bytes available — makes `ReadNext` return ordinary
end-of-data (`io.EOF`), not a TruncatedPayload error: `io.ReadFull` on
the empty remainder reports `io.EOF`, which `ReadNext` forwards as-is. -/
theorem readNext_eof_at_header_boundary :
    ReadNext (NewDefaultMessageAuthenticator toyHash []) ([65, 65, 65, 65] ++ putUint64 13) =
      .eofData ∧
    computeHeaderLengthWithHash toyHash < beUint64 (putUint64 13) ∧
    ReadNextResult.eofData ≠ ReadNextResult.errTruncatedPayload := by
  decide

/-- C3 (amended): after a full header declaring
`size > HeaderLength`, a source ending strictly inside the payload
yields the TruncatedPayload error when at least one payload byte was
available, but ordinary end-of-data (`io.EOF`) when the source ends
exactly at the header boundary. -/
theorem readNext_truncated_payload_amended (H : HashFn) (key source : List Nat)
    (hsz : computeHeaderLengthWithHash H <
      beUint64 ((source.take (computeHeaderLengthWithHash H)).drop
        (computeHeaderLengthWithHash H - lengthHeaderFieldSize)))
    (hshort : source.length <
      beUint64 ((source.take (computeHeaderLengthWithHash H)).drop
        (computeHeaderLengthWithHash H - lengthHeaderFieldSize))) :
    (source.length = computeHeaderLengthWithHash H →
      ReadNext (NewDefaultMessageAuthenticator H key) source = .eofData) ∧
    (computeHeaderLengthWithHash H < source.length →
      ReadNext (NewDefaultMessageAuthenticator H key) source = .errTruncatedPayload) := by
  have hdrop : (source.drop (computeHeaderLengthWithHash H)).length =
      source.length - computeHeaderLengthWithHash H := by
    simp [List.length_drop]
  constructor
  · intro h
    rw [ReadNext]
    simp only [NewDefaultMessageAuthenticator]
    rw [if_neg (by omega), if_neg (by omega), if_pos (by rw [hdrop]; omega),
      if_pos (by rw [hdrop]; omega)]
  · intro h
    rw [ReadNext]
    simp only [NewDefaultMessageAuthenticator]
    rw [if_neg (by omega), if_neg (by omega), if_pos (by rw [hdrop]; omega),
      if_neg (by rw [hdrop]; omega)]

/-- Witness for the amended C3: a 13-byte source whose header declares
a 20-byte frame — one payload byte available out of eight — errs with
TruncatedPayload. -/
theorem readNext_truncated_payload_amended_witness :
    ReadNext (NewDefaultMessageAuthenticator toyHash [])
      ([65, 65, 65, 65] ++ putUint64 20 ++ [9]) = .errTruncatedPayload :=
  (readNext_truncated_payload_amended toyHash []
    ([65, 65, 65, 65] ++ putUint64 20 ++ [9]) (by decide) (by decide)).2 (by decide)

/-- C9: partial-write accounting of `AppendMACWriter.Write`.  For every
payload, when the underlying transport write fails after flushing `n`
bytes of the encoded frame, `Write` reports `n - HeaderLength` payload
bytes together with the write failure when `n ≥ HeaderLength`, and
exactly zero payload bytes together with the write failure when
`n < HeaderLength`. -/
theorem appendWriter_partial_write_accounting (H : HashFn) (key b : List Nat)
    (uw : List Nat → Nat × Option Unit) (n : Nat) (u : Unit)
    (hw : uw (encodeHeaderBytes H (computeHeaderLengthWithHash H) key b ++ b) = (n, some u)) :
    (computeHeaderLengthWithHash H ≤ n →
      appendMACWriterWrite H (computeHeaderLengthWithHash H) key uw b =
        ((n : Int) - computeHeaderLengthWithHash H, some .writeFailed)) ∧
    (n < computeHeaderLengthWithHash H →
      appendMACWriterWrite H (computeHeaderLengthWithHash H) key uw b =
        (0, some .writeFailed)) := by
  constructor
  · intro h
    simp only [appendMACWriterWrite, encodeHeader, hashWriteErr, hw]
    rw [if_pos h]
  · intro h
    simp only [appendMACWriterWrite, encodeHeader, hashWriteErr, hw]
    rw [if_neg (by omega)]

/-- Witness for C9: header length 12 for the concrete hash; a transport
failing after 13 flushed bytes reports 1 payload byte, one failing after
5 flushed bytes reports 0. -/
theorem appendWriter_partial_write_accounting_witness :
    appendMACWriterWrite toyHash (computeHeaderLengthWithHash toyHash) [1]
      (fun _ => (13, some ())) [2, 3] = (1, some .writeFailed) ∧
    appendMACWriterWrite toyHash (computeHeaderLengthWithHash toyHash) [1]
      (fun _ => (5, some ())) [2, 3] = (0, some .writeFailed) :=
  ⟨(appendWriter_partial_write_accounting toyHash [1] [2, 3]
      (fun _ => (13, some ())) 13 () rfl).1 (by decide),
   (appendWriter_partial_write_accounting toyHash [1] [2, 3]
      (fun _ => (5, some ())) 5 () rfl).2 (by decide)⟩

theorem computeHeaderLength_ge8 (H : HashFn) : 8 ≤ computeHeaderLengthWithHash H := by
  simp [computeHeaderLengthWithHash, lengthHeaderFieldSize]

theorem b64mac_length (H : HashFn) (key x : List Nat) :
    (b64encode (H.mac key x)).length = computeHeaderLengthWithHash H - 8 := by
  simp [b64encode_length, H.mac_length, computeHeaderLengthWithHash, lengthHeaderFieldSize]
  omega

theorem decodeHeader_parts (H : HashFn) (key P m : List Nat)
    (hm : m.length = computeHeaderLengthWithHash H - 8)
    (hb : computeHeaderLengthWithHash H + P.length < 18446744073709551616) :
    decodeHeader H (computeHeaderLengthWithHash H) key
      (m ++ (putUint64 (computeHeaderLengthWithHash H + P.length) ++ P)) =
      (if m = b64encode (H.mac key (putUint64 (computeHeaderLengthWithHash H + P.length) ++ P))
       then .ok P [] else .err .macMismatch) := by
  have h8 : 8 ≤ computeHeaderLengthWithHash H := computeHeaderLength_ge8 H
  set hl := computeHeaderLengthWithHash H with hhl
  set pu := putUint64 (hl + P.length) with hpu
  have hpul : pu.length = 8 := putUint64_length _
  set data := m ++ (pu ++ P) with datadef
  have hdlen : data.length = hl + P.length := by
    simp [datadef, hm, hpul]
    omega
  have htake : data.take hl = m ++ pu := by
    rw [datadef, List.take_append_eq_append_take,
      List.take_of_length_le (by omega : m.length ≤ hl), hm,
      List.take_append_eq_append_take,
      List.take_of_length_le (by omega : pu.length ≤ hl - (hl - 8)), hpul,
      (by omega : hl - (hl - 8) - 8 = 0), List.take_zero, List.append_nil]
  have hmac0 : (m ++ pu).take (hl - 8) = m := List.take_left' hm
  have hraw : (m ++ pu).drop (hl - 8) = pu := List.drop_left' hm
  have hsz : beUint64 pu = hl + P.length := beUint64_putUint64 _ hb
  have hmsg : (data.take (hl + P.length)).drop hl = P := by
    rw [List.take_of_length_le (by omega : data.length ≤ hl + P.length), datadef,
      List.drop_append_eq_append_drop, List.drop_eq_nil_of_le (by omega : m.length ≤ hl),
      hm, List.drop_append_eq_append_drop,
      List.drop_eq_nil_of_le (by omega : pu.length ≤ hl - (hl - 8)), hpul,
      (by omega : hl - (hl - 8) - 8 = 0), List.drop_zero, List.nil_append, List.nil_append]
  have hrest : data.drop (hl + P.length) = [] :=
    List.drop_eq_nil_of_le (by omega : data.length ≤ hl + P.length)
  rw [decodeHeader]
  simp only [lengthHeaderFieldSize, htake, hmac0, hraw, hsz, hdlen, hmsg, hrest]
  rw [if_neg (by omega), if_neg (by omega), if_neg (by omega)]

/-- C8 (amended): mutating any single byte of a produced frame's
AuthCode always fails with MACMismatch (part 1: the stored AuthCode
differs from the recomputed one at the mutated position); replacing the
payload by any same-length payload whose recomputed AuthCode differs —
in particular any single-byte payload mutation that changes the MAC —
also fails with MACMismatch (part 2).  Mutating a LengthField byte,
however, can fail differently (see the counterexample). -/
theorem tamper_detection_amended (H : HashFn) (key : List Nat) :
    (∀ P u v b c, computeHeaderLengthWithHash H + P.length < 18446744073709551616 →
      b64encode (H.mac key (putUint64 (computeHeaderLengthWithHash H + P.length) ++ P)) =
        u ++ c :: v →
      b ≠ c →
      decodeHeader H (computeHeaderLengthWithHash H) key
        ((u ++ b :: v) ++ (putUint64 (computeHeaderLengthWithHash H + P.length) ++ P)) =
        .err .macMismatch) ∧
    (∀ P Q, computeHeaderLengthWithHash H + P.length < 18446744073709551616 →
      Q.length = P.length →
      b64encode (H.mac key (putUint64 (computeHeaderLengthWithHash H + P.length) ++ Q)) ≠
        b64encode (H.mac key (putUint64 (computeHeaderLengthWithHash H + P.length) ++ P)) →
      decodeHeader H (computeHeaderLengthWithHash H) key
        (encodeHeaderBytes H (computeHeaderLengthWithHash H) key P ++ Q) =
        .err .macMismatch) := by
  constructor
  · intro P u v b c hb hb64 hbc
    have hm : (u ++ b :: v).length = computeHeaderLengthWithHash H - 8 := by
      have h1 : (u ++ c :: v).length = computeHeaderLengthWithHash H - 8 := by
        rw [← hb64]; exact b64mac_length H key _
      simpa using h1
    rw [decodeHeader_parts H key P (u ++ b :: v) hm hb, if_neg]
    intro hcontra
    rw [hb64] at hcontra
    have h2 := List.append_cancel_left hcontra
    simp at h2
    exact hbc h2
  · intro P Q hb hQ hneq
    have hm : (b64encode (H.mac key (putUint64 (computeHeaderLengthWithHash H + P.length) ++ P))).length =
        computeHeaderLengthWithHash H - 8 := b64mac_length H key _
    have hassoc : encodeHeaderBytes H (computeHeaderLengthWithHash H) key P ++ Q =
        b64encode (H.mac key (putUint64 (computeHeaderLengthWithHash H + P.length) ++ P)) ++
          (putUint64 (computeHeaderLengthWithHash H + P.length) ++ Q) := by
      rw [encodeHeaderBytes]
      simp [List.append_assoc]
    rw [hassoc]
    have hQP : computeHeaderLengthWithHash H + Q.length =
        computeHeaderLengthWithHash H + P.length := by rw [hQ]
    rw [show putUint64 (computeHeaderLengthWithHash H + P.length) ++ Q =
          putUint64 (computeHeaderLengthWithHash H + Q.length) ++ Q by rw [hQP]]
    rw [decodeHeader_parts H key Q _ hm (by omega)]
    have hcond : ¬ (b64encode (H.mac key (putUint64 (computeHeaderLengthWithHash H + P.length) ++ P)) =
        b64encode (H.mac key (putUint64 (computeHeaderLengthWithHash H + Q.length) ++ Q))) := by
      rw [hQP]
      exact fun h => hneq h.symm
    rw [if_neg hcond]

/-- C8 (counterexample): mutating a single byte of a produced frame —
the most-significant LengthField byte, position 4 in a 13-byte frame of
the concrete hash, changed from 0 to 255 — makes verification fail with
DeclaredSizeMismatch, not MACMismatch: the declared size becomes larger
than the buffer and `decodeHeader` stops before ever computing a MAC. -/
theorem tamper_detection_lengthfield_cex :
    decodeHeader toyHash (computeHeaderLengthWithHash toyHash) [1]
      ((encodeHeaderBytes toyHash (computeHeaderLengthWithHash toyHash) [1] [7] ++ [7]).set 4 255) =
      .err .declaredSizeMismatch ∧
    (encodeHeaderBytes toyHash (computeHeaderLengthWithHash toyHash) [1] [7] ++ [7]).getD 4 0 = 0 ∧
    DecodeErr.declaredSizeMismatch ≠ DecodeErr.macMismatch := by
  decide

/-- Witness for the amended C8: the concrete frame's AuthCode is
`[83, 119, 61, 61]`; flipping its first byte to 84 gives MACMismatch
(part 1), and flipping the payload byte 7 to 9 gives MACMismatch
(part 2). -/
theorem tamper_detection_amended_witness :
    decodeHeader toyHash (computeHeaderLengthWithHash toyHash) [1]
      (([] ++ 84 :: [119, 61, 61]) ++
        (putUint64 (computeHeaderLengthWithHash toyHash + 1) ++ [7])) = .err .macMismatch ∧
    decodeHeader toyHash (computeHeaderLengthWithHash toyHash) [1]
      (encodeHeaderBytes toyHash (computeHeaderLengthWithHash toyHash) [1] [7] ++ [9]) =
      .err .macMismatch :=
  ⟨(tamper_detection_amended toyHash [1]).1 [7] [] [119, 61, 61] 84 83
      (by decide) (by decide) (by decide),
   (tamper_detection_amended toyHash [1]).2 [7] [9] (by decide) (by decide) (by decide)⟩

theorem decodeHeader_ok_shape (H : HashFn) (hl : Nat) (key data msg rest : List Nat)
    (h : decodeHeader H hl key data = .ok msg rest) :
    hl ≤ data.length ∧
    ∃ size, hl ≤ size ∧ size ≤ data.length ∧
      msg = (data.take size).drop hl ∧ rest = data.drop size := by
  rw [decodeHeader] at h
  by_cases h1 : data.length < hl
  · rw [if_pos h1] at h; simp at h
  rw [if_neg h1] at h
  by_cases h2 : data.length < beUint64 ((data.take hl).drop (hl - lengthHeaderFieldSize))
  · rw [if_pos h2] at h; simp at h
  rw [if_neg h2] at h
  by_cases h3 : beUint64 ((data.take hl).drop (hl - lengthHeaderFieldSize)) < hl
  · rw [if_pos h3] at h; simp at h
  rw [if_neg h3] at h
  by_cases h4 : (data.take hl).take (hl - lengthHeaderFieldSize) =
      b64encode (H.mac key ((data.take hl).drop (hl - lengthHeaderFieldSize) ++
        (data.take (beUint64 ((data.take hl).drop (hl - lengthHeaderFieldSize)))).drop hl))
  · rw [if_pos h4] at h
    simp only [DecodeResult.ok.injEq] at h
    exact ⟨by omega, beUint64 ((data.take hl).drop (hl - lengthHeaderFieldSize)),
      by omega, by omega, h.1.symm, h.2.symm⟩
  · rw [if_neg h4] at h; simp at h

/-- The concatenation of independently produced frames (header then
payload, back to back with no delimiter). -/
def concatFrames (H : HashFn) (hl : Nat) (key : List Nat) : List (List Nat) → List Nat
  | [] => []
  | p :: ps => (encodeHeaderBytes H hl key p ++ p) ++ concatFrames H hl key ps

/-- The concatenation of the frames' payloads. -/
def concatPayloads : List (List Nat) → List Nat
  | [] => []
  | p :: ps => p ++ concatPayloads ps

theorem authAux_ok_frames (H : HashFn) (key : List Nat) :
    ∀ (ps : List (List Nat)) (processed : List Nat) (n fuel : Nat),
      (∀ p ∈ ps, computeHeaderLengthWithHash H + p.length < 18446744073709551616) →
      (concatFrames H (computeHeaderLengthWithHash H) key ps).length < fuel →
      authMessagesAux H (computeHeaderLengthWithHash H) key fuel processed
        (concatFrames H (computeHeaderLengthWithHash H) key ps) n =
        .ok (processed ++ concatPayloads ps) (n + ps.length) := by
  intro ps
  induction ps with
  | nil =>
      intro processed n fuel _ hfuel
      cases fuel with
      | zero => omega
      | succ f => simp [authMessagesAux, concatFrames, concatPayloads]
  | cons p ps ih =>
      intro processed n fuel hbound hfuel
      have h8 : 8 ≤ computeHeaderLengthWithHash H := computeHeaderLength_ge8 H
      have hhdr : (encodeHeaderBytes H (computeHeaderLengthWithHash H) key p).length =
          computeHeaderLengthWithHash H := encodeHeaderBytes_length H key p
      have hlen : (concatFrames H (computeHeaderLengthWithHash H) key (p :: ps)).length =
          computeHeaderLengthWithHash H + p.length +
          (concatFrames H (computeHeaderLengthWithHash H) key ps).length := by
        simp [concatFrames, hhdr]
        omega
      cases fuel with
      | zero => omega
      | succ f =>
          have hne : concatFrames H (computeHeaderLengthWithHash H) key (p :: ps) ≠ [] := by
            intro hcon
            have h0 := congrArg List.length hcon
            rw [hlen] at h0
            simp at h0
            omega
          have hdec : decodeHeader H (computeHeaderLengthWithHash H) key
              (concatFrames H (computeHeaderLengthWithHash H) key (p :: ps)) =
              .ok p (concatFrames H (computeHeaderLengthWithHash H) key ps) := by
            have hfr := decodeHeader_frame H key p
              (concatFrames H (computeHeaderLengthWithHash H) key ps)
              (hbound p (by simp))
            rw [concatFrames, List.append_assoc]
            exact hfr
          have hrec := ih (processed ++ p) (n + 1) f
            (fun q hq => hbound q (by simp [hq]))
            (by rw [hlen] at hfuel; omega)
          rw [authMessagesAux, if_neg hne, hdec]
          refine hrec.trans ?_
          simp [concatPayloads, List.append_assoc]
          omega

theorem authAux_err_frames (H : HashFn) (key bad : List Nat) (e : DecodeErr)
    (hbad : decodeHeader H (computeHeaderLengthWithHash H) key bad = .err e)
    (hbadne : bad ≠ []) :
    ∀ (ps : List (List Nat)) (processed : List Nat) (n fuel : Nat),
      (∀ p ∈ ps, computeHeaderLengthWithHash H + p.length < 18446744073709551616) →
      (concatFrames H (computeHeaderLengthWithHash H) key ps ++ bad).length < fuel →
      authMessagesAux H (computeHeaderLengthWithHash H) key fuel processed
        (concatFrames H (computeHeaderLengthWithHash H) key ps ++ bad) n =
        .err (processed ++ concatPayloads ps) (n + ps.length) e := by
  intro ps
  induction ps with
  | nil =>
      intro processed n fuel _ hfuel
      cases fuel with
      | zero => omega
      | succ f =>
          rw [concatFrames, List.nil_append]
          rw [authMessagesAux, if_neg hbadne, hbad]
          simp [concatPayloads]
  | cons p ps ih =>
      intro processed n fuel hbound hfuel
      have h8 : 8 ≤ computeHeaderLengthWithHash H := computeHeaderLength_ge8 H
      have hhdr : (encodeHeaderBytes H (computeHeaderLengthWithHash H) key p).length =
          computeHeaderLengthWithHash H := encodeHeaderBytes_length H key p
      have hlen : (concatFrames H (computeHeaderLengthWithHash H) key (p :: ps) ++ bad).length =
          computeHeaderLengthWithHash H + p.length +
          (concatFrames H (computeHeaderLengthWithHash H) key ps ++ bad).length := by
        simp [concatFrames, hhdr]
        omega
      cases fuel with
      | zero => omega
      | succ f =>
          have hne : concatFrames H (computeHeaderLengthWithHash H) key (p :: ps) ++ bad ≠ [] := by
            intro hcon
            have h0 := congrArg List.length hcon
            rw [hlen] at h0
            simp at h0
            omega
          have hdec : decodeHeader H (computeHeaderLengthWithHash H) key
              (concatFrames H (computeHeaderLengthWithHash H) key (p :: ps) ++ bad) =
              .ok p (concatFrames H (computeHeaderLengthWithHash H) key ps ++ bad) := by
            have hfr := decodeHeader_frame H key p
              (concatFrames H (computeHeaderLengthWithHash H) key ps ++ bad)
              (hbound p (by simp))
            rw [concatFrames, List.append_assoc, List.append_assoc]
            exact hfr
          have hrec := ih (processed ++ p) (n + 1) f
            (fun q hq => hbound q (by simp [hq]))
            (by rw [hlen] at hfuel; omega)
          rw [authMessagesAux, if_neg hne, hdec]
          refine hrec.trans ?_
          simp [concatPayloads, List.append_assoc]
          omega

/-- C5 (amended): the loop `AuthenticateMessages` (ParseAll) over the empty
buffer yields `(empty, 0, nil)`; over the concatenation of N valid
frames it yields the concatenation of their N payloads and count N; and
when the first malformed suffix `bad` makes `decodeHeader` return one
of its three errors, it stops and returns everything successfully
parsed so far, the count of fully verified frames, and the error.  (A
malformed frame on which `decodeHeader` instead panics — declared
LengthField below the header length — panics the whole call; see the
counterexample.) -/
theorem parseAll_amended (H : HashFn) (key : List Nat) :
    (AuthenticateMessages (NewDefaultMessageAuthenticator H key) [] = .ok [] 0) ∧
    (∀ ps, (∀ p ∈ ps, computeHeaderLengthWithHash H + p.length < 18446744073709551616) →
      AuthenticateMessages (NewDefaultMessageAuthenticator H key)
        (concatFrames H (computeHeaderLengthWithHash H) key ps) =
        .ok (concatPayloads ps) ps.length) ∧
    (∀ ps bad e, (∀ p ∈ ps, computeHeaderLengthWithHash H + p.length < 18446744073709551616) →
      decodeHeader H (computeHeaderLengthWithHash H) key bad = .err e → bad ≠ [] →
      AuthenticateMessages (NewDefaultMessageAuthenticator H key)
        (concatFrames H (computeHeaderLengthWithHash H) key ps ++ bad) =
        .err (concatPayloads ps) ps.length e) := by
  refine ⟨rfl, ?_, ?_⟩
  · intro ps hb
    have h := authAux_ok_frames H key ps [] 0
      ((concatFrames H (computeHeaderLengthWithHash H) key ps).length + 1) hb (by omega)
    simpa [AuthenticateMessages, NewDefaultMessageAuthenticator] using h
  · intro ps bad e hb hbad hbadne
    have h := authAux_err_frames H key bad e hbad hbadne ps [] 0
      ((concatFrames H (computeHeaderLengthWithHash H) key ps ++ bad).length + 1) hb (by omega)
    simpa [AuthenticateMessages, NewDefaultMessageAuthenticator] using h

/-- Witness for the amended C5 at a concrete hash and key: empty
buffer, two concatenated frames, and one frame followed by malformed
bytes. -/
theorem parseAll_amended_witness :
    AuthenticateMessages (NewDefaultMessageAuthenticator toyHash [1]) [] = .ok [] 0 ∧
    AuthenticateMessages (NewDefaultMessageAuthenticator toyHash [1])
      (concatFrames toyHash (computeHeaderLengthWithHash toyHash) [1] [[7], [9]]) =
      .ok [7, 9] 2 ∧
    AuthenticateMessages (NewDefaultMessageAuthenticator toyHash [1])
      (concatFrames toyHash (computeHeaderLengthWithHash toyHash) [1] [[7]] ++
        List.replicate 12 66) = .err [7] 1 .declaredSizeMismatch :=
  ⟨(parseAll_amended toyHash [1]).1,
   (parseAll_amended toyHash [1]).2.1 [[7], [9]] (by decide),
   (parseAll_amended toyHash [1]).2.2 [[7]] (List.replicate 12 66) .declaredSizeMismatch
     (by decide) (by decide) (by decide)⟩

/-- C5 (counterexample): over one valid frame followed by a malformed
frame declaring LengthField 0, `AuthenticateMessages` does not stop and
return the first payload, the count and an error — it propagates
`decodeHeader`'s slice-bounds panic (`sliceOOB`), discarding the
partial success. -/
theorem parseAll_panics_on_bad_length_cex :
    AuthenticateMessages (NewDefaultMessageAuthenticator toyHash [1])
      ((encodeHeaderBytes toyHash (computeHeaderLengthWithHash toyHash) [1] [7] ++ [7]) ++
        (List.replicate 4 65 ++ putUint64 0)) = .sliceOOB ∧
    decodeHeader toyHash (computeHeaderLengthWithHash toyHash) [1]
      (List.replicate 4 65 ++ putUint64 0) = .sliceOOB := by
  decide

theorem authAux_ok_length (H : HashFn) (hl : Nat) (key : List Nat) :
    ∀ (fuel : Nat) (d processed : List Nat) (n : Nat) (msg : List Nat) (cnt : Nat),
      authMessagesAux H hl key fuel processed d n = .ok msg cnt →
      msg.length + (cnt - n) * hl = processed.length + d.length ∧ n ≤ cnt ∧
        (d ≠ [] → n < cnt) := by
  intro fuel
  induction fuel with
  | zero =>
      intro d processed n msg cnt h
      simp [authMessagesAux] at h
  | succ f ih =>
      intro d processed n msg cnt h
      rw [authMessagesAux] at h
      by_cases hd : d = []
      · rw [if_pos hd] at h
        simp only [AuthResult.ok.injEq] at h
        obtain ⟨hp, hn⟩ := h
        subst hp
        subst hn
        refine ⟨by simp [hd], le_refl n, fun hcon => absurd hd hcon⟩
      · rw [if_neg hd] at h
        cases hdec : decodeHeader H hl key d with
        | ok m r =>
            rw [hdec] at h
            obtain ⟨ha, hb, _⟩ := ih r (processed ++ m) (n + 1) msg cnt h
            obtain ⟨hhl, size, hs1, hs2, hm, hr⟩ :=
              decodeHeader_ok_shape H hl key d m r hdec
            have hml : m.length = size - hl := by
              rw [hm]
              simp [List.length_drop, List.length_take]
              omega
            have hrl : r.length = d.length - size := by
              rw [hr]
              simp [List.length_drop]
            refine ⟨?_, by omega, fun _ => by omega⟩
            have hstep : cnt - n = (cnt - (n + 1)) + 1 := by omega
            rw [hstep, Nat.add_mul, one_mul]
            simp only [List.length_append] at ha
            omega
        | err e => rw [hdec] at h; simp at h
        | sliceOOB => rw [hdec] at h; simp at h

/-- C2 (amended): the adapter `VerifyMACReader.Read` holds no carry-over state.
When the fetched data (at least `headerLen`, at most `headerLen +
len(b)` bytes, taken eagerly from the source) parses completely, `Read`
delivers the entire concatenated verified payload — which always fits,
its length being at most `len(b)` — returns its length with no error,
and retains nothing.  When parsing fails, `Read` delivers zero bytes
with an error while the source has still advanced past everything
fetched, so the verified payloads of that fetch are discarded, not
retained. -/
theorem verifyReader_no_carry_over_amended (H : HashFn) (key source : List Nat) (bLen : Nat) :
    (∀ msg N, computeHeaderLengthWithHash H ≤ source.length →
      AuthenticateMessages ⟨H, key, computeHeaderLengthWithHash H⟩
        (source.take (min (computeHeaderLengthWithHash H + bLen) source.length)) = .ok msg N →
      verifyMACReaderRead H (computeHeaderLengthWithHash H) key source bLen =
        .ret msg.length msg none
          (source.drop (min (computeHeaderLengthWithHash H + bLen) source.length)) ∧
      msg.length ≤ bLen) ∧
    (∀ p cnt e, computeHeaderLengthWithHash H ≤ source.length →
      AuthenticateMessages ⟨H, key, computeHeaderLengthWithHash H⟩
        (source.take (min (computeHeaderLengthWithHash H + bLen) source.length)) = .err p cnt e →
      verifyMACReaderRead H (computeHeaderLengthWithHash H) key source bLen =
        .ret 0 [] (some .verifyFailed)
          (source.drop (min (computeHeaderLengthWithHash H + bLen) source.length))) := by
  have h8 : 8 ≤ computeHeaderLengthWithHash H := computeHeaderLength_ge8 H
  constructor
  · intro msg N hlen hok
    have hn : computeHeaderLengthWithHash H ≤
        min (computeHeaderLengthWithHash H + bLen) source.length := by omega
    have hdl : (source.take (min (computeHeaderLengthWithHash H + bLen) source.length)).length =
        min (computeHeaderLengthWithHash H + bLen) source.length := by
      simp [List.length_take]
    have hacct := authAux_ok_length H (computeHeaderLengthWithHash H) key
      ((source.take (min (computeHeaderLengthWithHash H + bLen) source.length)).length + 1)
      (source.take (min (computeHeaderLengthWithHash H + bLen) source.length)) [] 0 msg N hok
    obtain ⟨ha, _, hc⟩ := hacct
    have hne : source.take (min (computeHeaderLengthWithHash H + bLen) source.length) ≠ [] := by
      intro hcon
      have h0 := congrArg List.length hcon
      rw [hdl] at h0
      simp only [List.length_nil] at h0
      omega
    have hN : 1 ≤ N := hc hne
    have hmlen : msg.length ≤ bLen := by
      rw [hdl, Nat.sub_zero] at ha
      simp only [List.length_nil, Nat.zero_add] at ha
      have hNla : computeHeaderLengthWithHash H ≤ N * computeHeaderLengthWithHash H :=
        Nat.le_mul_of_pos_left _ (by omega)
      have hmin : min (computeHeaderLengthWithHash H + bLen) source.length ≤
          computeHeaderLengthWithHash H + bLen := Nat.min_le_left _ _
      omega
    refine ⟨?_, hmlen⟩
    rw [verifyMACReaderRead, if_neg (by omega)]
    simp only [hok]
    rw [Nat.min_eq_right hmlen, List.take_of_length_le hmlen]
  · intro p cnt e hlen herr
    rw [verifyMACReaderRead, if_neg (by omega)]
    simp only [herr]

set_option maxRecDepth 100000

def mockKey : List Nat := [109, 111, 99, 107, 32, 107, 101, 121]

def c2frame1 : List Nat :=
  [56, 78, 108, 99, 99, 84, 103, 71, 108, 84, 111, 66, 69, 50, 50, 67, 89, 121, 71, 67,
   81, 79, 56, 67, 99, 43, 52, 80, 100, 71, 74, 47, 108, 78, 67, 85, 56, 103, 54, 107,
   75, 98, 48, 61, 0, 0, 0, 0, 0, 0, 0, 53, 255]

def c2frame2 : List Nat :=
  [84, 56, 43, 105, 108, 99, 101, 57, 76, 108, 110, 77, 116, 89, 83, 120, 108, 122, 100, 114,
   48, 57, 57, 54, 57, 48, 57, 106, 69, 109, 82, 84, 53, 115, 83, 86, 72, 50, 114, 114,
   67, 56, 52, 61, 0, 0, 0, 0, 0, 0, 0, 53, 0]

/-- C2 (counterexample): two valid SHA-256 frames (key `"mock key"`,
payloads `[255]` and `[0]`, computed by the embedded HMAC-SHA-256 and
pinned here as literals) sit back to back on the source.  A `Read` with
a 2-byte destination fetches 54 bytes — all of frame 1 plus one byte of
frame 2.  Frame 1 verifies with payload byte 255 (third conjunct), yet
`Read` delivers nothing, returns an error, and leaves the source past
frame 1: the verified byte 255 is in neither the delivered bytes nor
the remaining source — dropped, with no carry-over buffer to retain it,
and unrecoverable by any subsequent `Read`. -/
theorem verifyReader_drops_verified_bytes_cex :
    c2frame1 = encodeHeaderBytes sha256HashFn (computeHeaderLengthWithHash sha256HashFn)
      mockKey [255] ++ [255] ∧
    c2frame2 = encodeHeaderBytes sha256HashFn (computeHeaderLengthWithHash sha256HashFn)
      mockKey [0] ++ [0] ∧
    decodeHeader sha256HashFn (computeHeaderLengthWithHash sha256HashFn) mockKey
      (c2frame1 ++ c2frame2) = .ok [255] c2frame2 ∧
    verifyMACReaderReadSha256 mockKey (c2frame1 ++ c2frame2) 2 =
      .ret 0 [] (some .verifyFailed) (c2frame2.drop 1) ∧
    255 ∉ c2frame2.drop 1 ∧ 255 ∉ ([] : List Nat) :=
  ⟨by decide, by decide, by decide, by decide, by decide, by decide⟩

/-- Witness for the amended C2: a single-frame source delivered whole
through a 1-byte destination buffer, at the real SHA-256
instantiation. -/
theorem verifyReader_no_carry_over_amended_witness :
    verifyMACReaderReadSha256 mockKey c2frame1 1 = .ret 1 [255] none [] ∧ 1 ≤ 1 :=
  ((verifyReader_no_carry_over_amended sha256HashFn mockKey c2frame1 1).1 [255] 1
    (by decide) (by decide))
